import Mathlib

/-!
Shallow embedding of `src/models/rf.py` (rectified-flow training loss and
Euler samplers) and the spec-level comparators needed to check the claims.

Tensors are modelled as flat lists of exact rationals (standing in for
floating-point values); a batch is one tensor per sample.  Random draws
(`torch.rand`, `torch.randn`, the autoencoder's latent sample) are passed in
explicitly as parameters, so every function here is the deterministic part of
the corresponding Python method given its draws.  External collaborators
(the velocity network `net`, the autoencoder `vae`, and the library sigmoid)
are parameters, as in the source where they are injected objects.
-/

namespace ArchiRF

/-- A tensor: flat list of exact rational entries. -/
abbrev Tensor := List ℚ

/-- A batch of samples, one `Tensor` per sample. -/
abbrev Batch := List Tensor

/-- Elementwise unary operation on a tensor. -/
def tMap (f : ℚ → ℚ) (x : Tensor) : Tensor := x.map f

/-- Elementwise binary operation on tensors of equal shape. -/
def tZip (f : ℚ → ℚ → ℚ) (a b : Tensor) : Tensor := List.zipWith f a b

/-- Elementwise difference `a - b`. -/
def tSub (a b : Tensor) : Tensor := tZip (fun u v => u - v) a b

/-- Modelled from the spec: `modules/utils.py` (imported by `rf.py`) is not in
the sources; the spec fixes `normalize_to_neg1_1` as the fixed affine map
carrying [0,1] to [−1,1]. -/
def normalize_to_neg1_1 (v : ℚ) : ℚ := 2 * v - 1

/-- Modelled from the spec: the inverse fixed affine map carrying [−1,1] back
to [0,1], `unnormalize_to_0_1`. -/
def unnormalize_to_0_1 (v : ℚ) : ℚ := (v + 1) / 2

/-- torch `clip(lo, hi)` on one entry. -/
def clipQ (lo hi v : ℚ) : ℚ := min (max v lo) hi

/-- The postprocessing `unnormalize_to_0_1(z.clip(-1, 1))` applied to a batch. -/
def postprocess (z : Batch) : Batch :=
  z.map (tMap (fun v => unnormalize_to_0_1 (clipQ (-1) 1 v)))

/-- The velocity-network collaborator.  `call` is the batched training call
`net(z_t, t, c)` with per-sample times and optional labels; `callUncond` is the
sampling call `net(z, t)` with one scalar time; `forward_with_cfg` is the
classifier-free-guidance variant `net.forward_with_cfg(z, t, y, cfg_scale)`. -/
structure Net where
  num_classes : Option ℕ
  call : Batch → List ℚ → Option (List ℕ) → Batch
  callUncond : Batch → ℚ → Batch
  forward_with_cfg : Batch → List ℚ → List ℕ → ℚ → Batch

/-- `self.use_cond = self.net.num_classes is not None`. -/
def Net.use_cond (net : Net) : Bool := net.num_classes.isSome

/-- Errors surfaced by the `assert` statements of `rf.py`. -/
inductive RFError where
  | condNeedsLabels : RFError
  | condRequired : RFError
deriving DecidableEq

/-- The `RectifiedFlow` module configuration. -/
structure RectifiedFlow where
  net : Net
  channels : ℕ
  image_size : ℕ
  logit_normal_sampling_t : Bool

/-- `F.mse_loss(a, b)`: mean over all elements of the squared difference. -/
def mse_loss (a b : Batch) : ℚ :=
  let d := (List.zipWith tSub a b).flatten
  (d.map (fun v => v ^ 2)).sum / (d.length : ℚ)

/-- `z_t = (1 - t_) * x + t_ * z` with the per-sample time broadcast over each
sample's entries (`rearrange(t, "b -> b 1 1 1")`). -/
def broadcastInterp : List ℚ → Batch → Batch → Batch
  | t :: ts, x :: xs, z :: zs =>
      tZip (fun xv zv => (1 - t) * xv + t * zv) x z :: broadcastInterp ts xs zs
  | _, _, _ => []

/-- `RectifiedFlow.forward` (the training loss), `rf.py` lines 27–42.  `tDraw`
is the per-sample random draw feeding the time policy (`torch.randn` under the
logit-normal policy, `torch.rand` otherwise), `z` is `torch.randn_like(x)`, and
`sigmoid` is the library's `Tensor.sigmoid`, an external function like `net`. -/
def RectifiedFlow.forward (m : RectifiedFlow) (sigmoid : ℚ → ℚ) (x : Batch)
    (c : Option (List ℕ)) (tDraw : List ℚ) (z : Batch) : Except RFError ℚ :=
  if m.net.use_cond = true ∧ c = none then Except.error RFError.condNeedsLabels
  else
    let t := if m.logit_normal_sampling_t then tDraw.map sigmoid else tDraw
    let xn := x.map (tMap normalize_to_neg1_1)
    let z_t := broadcastInterp t xn z
    let v_t := m.net.call z_t t c
    let target := List.zipWith tSub z xn
    Except.ok (mse_loss target v_t)

/-- `torch.linspace(a, b, n)`: `n` evenly spaced values from `a` to `b`
(`[a]` when `n = 1`, empty when `n = 0`, as in torch). -/
def linspace (a b : ℚ) (n : ℕ) : List ℚ :=
  (List.range n).map (fun i : ℕ => a + (b - a) * (i : ℚ) / ((n : ℚ) - 1))

/-- One Euler update of the unconditional sampler:
`v_t = net(z, t); z ← z - v_t / sampling_steps`. -/
def RectifiedFlow.eulerStep (m : RectifiedFlow) (steps : ℕ) (z : Batch) (t : ℚ) :
    Batch :=
  List.zipWith (fun zi vi => tZip (fun a b => a - b / (steps : ℚ)) zi vi) z
    (m.net.callUncond z t)

/-- One guided Euler update of `cond_sample`: the time is repeated over the
batch (`t.repeat(len(z))`) and the CFG variant of the network is queried. -/
def RectifiedFlow.cfgStep (m : RectifiedFlow) (steps : ℕ) (y : List ℕ) (cfg : ℚ)
    (z : Batch) (t : ℚ) : Batch :=
  List.zipWith (fun zi vi => tZip (fun a b => a - b / (steps : ℚ)) zi vi) z
    (m.net.forward_with_cfg z (List.replicate z.length t) y cfg)

/-- The sampler loop: fold a step function over the time points, appending each
new state to the `images` accumulator (the `images.append(z)` of the source). -/
def eulerFold (step : Batch → ℚ → Batch) (ts : List ℚ) (st : Batch × List Batch) :
    Batch × List Batch :=
  ts.foldl (fun s t => let z := step s.1 t; (z, s.2 ++ [z])) st

/-- Number of iterations of the sampler loop (one network query and one
division by `sampling_steps` each): the length of the reversed time span. -/
def sampleLoopIterations (steps : ℕ) : ℕ := ((linspace 0 1 steps).reverse).length

/-- `RectifiedFlow.sample` (`rf.py` lines 44–62) without the trajectory; the
initial noise `z0` (`torch.randn`) is passed explicitly. -/
def RectifiedFlow.sample (m : RectifiedFlow) (steps : ℕ) (z0 : Batch) : Batch :=
  postprocess (eulerFold (m.eulerStep steps) ((linspace 0 1 steps).reverse)
    (z0, [z0])).1

/-- `RectifiedFlow.sample` with `return_all_steps=True`: the final image and
the postprocessed trajectory. -/
def RectifiedFlow.sampleAll (m : RectifiedFlow) (steps : ℕ) (z0 : Batch) :
    Batch × List Batch :=
  let r := eulerFold (m.eulerStep steps) ((linspace 0 1 steps).reverse) (z0, [z0])
  (postprocess r.1, r.2.map postprocess)

/-- `RectifiedFlow.cond_sample` (`rf.py` lines 64–87) without the trajectory. -/
def RectifiedFlow.cond_sample (m : RectifiedFlow) (classes : List ℕ) (steps : ℕ)
    (cfg : ℚ) (z0 : Batch) : Except RFError Batch :=
  if m.net.use_cond = true then
    Except.ok (postprocess (eulerFold (m.cfgStep steps classes cfg)
      ((linspace 0 1 steps).reverse) (z0, [z0])).1)
  else Except.error RFError.condRequired

/-- `RectifiedFlow.cond_sample` with `return_all_steps=True`. -/
def RectifiedFlow.cond_sampleAll (m : RectifiedFlow) (classes : List ℕ)
    (steps : ℕ) (cfg : ℚ) (z0 : Batch) : Except RFError (Batch × List Batch) :=
  if m.net.use_cond = true then
    let r := eulerFold (m.cfgStep steps classes cfg)
      ((linspace 0 1 steps).reverse) (z0, [z0])
    Except.ok (postprocess r.1, r.2.map postprocess)
  else Except.error RFError.condRequired

/-- The pretrained autoencoder collaborator: `encodeSample x` stands for
`vae.encode(x).latent_dist.sample()` (its random draw folded in) and
`decodeFn x` for `vae.decode(x).sample`. -/
structure VAE where
  encodeSample : Batch → Batch
  decodeFn : Batch → Batch

/-- The `LatentRectifiedFlow` module: a `RectifiedFlow` plus the frozen vae. -/
structure LatentRectifiedFlow extends RectifiedFlow where
  vae : VAE

/-- The fixed latent scaling constant `0.13025`. -/
def scaleConst : ℚ := 13025 / 100000

/-- `LatentRectifiedFlow.encode`: the latent sample multiplied by `0.13025`. -/
def LatentRectifiedFlow.encode (m : LatentRectifiedFlow) (x : Batch) : Batch :=
  (m.vae.encodeSample x).map (tMap (fun v => v * scaleConst))

/-- `LatentRectifiedFlow.decode`: divide by `0.13025`, then decode. -/
def LatentRectifiedFlow.decode (m : LatentRectifiedFlow) (x : Batch) : Batch :=
  m.vae.decodeFn (x.map (tMap (fun v => v / scaleConst)))

/-- `LatentRectifiedFlow.sample` (`rf.py` lines 135–156): the source loop is
line-for-line the one of `RectifiedFlow.sample`; the result is decoded before
the clip/remap postprocessing. -/
def LatentRectifiedFlow.sample (m : LatentRectifiedFlow) (steps : ℕ)
    (z0 : Batch) : Batch :=
  postprocess (m.decode (eulerFold (m.toRectifiedFlow.eulerStep steps)
    ((linspace 0 1 steps).reverse) (z0, [z0])).1)

/-- `LatentRectifiedFlow.sample` with `return_all_steps=True`: every stored
state is decoded, then clipped and remapped. -/
def LatentRectifiedFlow.sampleAll (m : LatentRectifiedFlow) (steps : ℕ)
    (z0 : Batch) : Batch × List Batch :=
  let r := eulerFold (m.toRectifiedFlow.eulerStep steps)
    ((linspace 0 1 steps).reverse) (z0, [z0])
  (postprocess (m.decode r.1), r.2.map (fun img => postprocess (m.decode img)))

/-- `LatentRectifiedFlow.cond_sample` (`rf.py` lines 158–184). -/
def LatentRectifiedFlow.cond_sample (m : LatentRectifiedFlow) (classes : List ℕ)
    (steps : ℕ) (cfg : ℚ) (z0 : Batch) : Except RFError Batch :=
  if m.net.use_cond = true then
    Except.ok (postprocess (m.decode (eulerFold
      (m.toRectifiedFlow.cfgStep steps classes cfg)
      ((linspace 0 1 steps).reverse) (z0, [z0])).1))
  else Except.error RFError.condRequired

/-- `LatentRectifiedFlow.cond_sample` with `return_all_steps=True`. -/
def LatentRectifiedFlow.cond_sampleAll (m : LatentRectifiedFlow)
    (classes : List ℕ) (steps : ℕ) (cfg : ℚ) (z0 : Batch) :
    Except RFError (Batch × List Batch) :=
  if m.net.use_cond = true then
    let r := eulerFold (m.toRectifiedFlow.cfgStep steps classes cfg)
      ((linspace 0 1 steps).reverse) (z0, [z0])
    Except.ok (postprocess (m.decode r.1),
      r.2.map (fun img => postprocess (m.decode img)))
  else Except.error RFError.condRequired

/-- Modelled from the spec: the "un-guided conditional Euler integration" that
`cond_sample` at `cfg_scale = 1` is claimed to coincide with — the same Euler
loop with the plain conditional prediction `net(z, t, c)` in place of the
guided variant. -/
def unguidedCondEuler (m : RectifiedFlow) (classes : List ℕ) (steps : ℕ)
    (z0 : Batch) : Batch :=
  postprocess (((linspace 0 1 steps).reverse).foldl
    (fun z t =>
      List.zipWith (fun zi vi => tZip (fun a b => a - b / (steps : ℚ)) zi vi) z
        (m.net.call z (List.replicate z.length t) (some classes)))
    z0)

/-! Helper lemmas about the sampler loop, the time grid, and the loss. -/

/-- The successive states produced by folding `step` over the time list. -/
def eulerStates (step : Batch → ℚ → Batch) : List ℚ → Batch → List Batch
  | [], _ => []
  | t :: ts, z => step z t :: eulerStates step ts (step z t)

lemma eulerFold_cons (step : Batch → ℚ → Batch) (t : ℚ) (ts : List ℚ)
    (z : Batch) (acc : List Batch) :
    eulerFold step (t :: ts) (z, acc) =
      eulerFold step ts (step z t, acc ++ [step z t]) := rfl

lemma eulerFold_fst (step : Batch → ℚ → Batch) (ts : List ℚ) :
    ∀ (z : Batch) (acc : List Batch),
      (eulerFold step ts (z, acc)).1 = ts.foldl step z := by
  induction ts with
  | nil => intro z acc; rfl
  | cons t ts ih =>
      intro z acc
      rw [eulerFold_cons, List.foldl_cons]
      exact ih (step z t) _

lemma eulerFold_snd (step : Batch → ℚ → Batch) (ts : List ℚ) :
    ∀ (z : Batch) (acc : List Batch),
      (eulerFold step ts (z, acc)).2 = acc ++ eulerStates step ts z := by
  induction ts with
  | nil => intro z acc; simp [eulerFold, eulerStates]
  | cons t ts ih =>
      intro z acc
      rw [eulerFold_cons, ih (step z t)]
      simp [eulerStates]

lemma eulerStates_length (step : Batch → ℚ → Batch) (ts : List ℚ) :
    ∀ z : Batch, (eulerStates step ts z).length = ts.length := by
  induction ts with
  | nil => intro z; rfl
  | cons t ts ih => intro z; simp [eulerStates, ih]

lemma eulerStates_getLast (step : Batch → ℚ → Batch) (ts : List ℚ) :
    ∀ z : Batch, (z :: eulerStates step ts z).getLast? = some (ts.foldl step z) := by
  induction ts with
  | nil => intro z; rfl
  | cons t ts ih =>
      intro z
      show (z :: (step z t :: eulerStates step ts (step z t))).getLast? =
        some (ts.foldl step (step z t))
      rw [List.getLast?_cons_cons]
      exact ih (step z t)

lemma linspace_length (a b : ℚ) (n : ℕ) : (linspace a b n).length = n := by
  unfold linspace
  rw [List.length_map, List.length_range]

lemma linspace_getD (a b : ℚ) (n k : ℕ) (hk : k < n) :
    (linspace a b n).getD k 0 = a + (b - a) * (k : ℚ) / ((n : ℚ) - 1) := by
  unfold linspace
  rw [List.getD_eq_getElem _ _ (by rw [List.length_map, List.length_range]; omega),
    List.getElem_map, List.getElem_range]

lemma linspace_reverse_getD (n i : ℕ) (h2 : 2 ≤ n) (hi : i < n) :
    ((linspace 0 1 n).reverse).getD i 0 = ((n : ℚ) - 1 - i) / ((n : ℚ) - 1) := by
  have h1 : ((linspace 0 1 n).reverse).getD i 0
      = (linspace 0 1 n).getD (n - 1 - i) 0 := by
    rw [List.getD_eq_getElem _ _ (by rw [List.length_reverse, linspace_length]; omega),
      List.getElem_reverse,
      List.getD_eq_getElem _ _ (by rw [linspace_length]; omega)]
    simp only [linspace_length]
  rw [h1, linspace_getD 0 1 n (n - 1 - i) (by omega)]
  have hcast : ((n - 1 - i : ℕ) : ℚ) = (n : ℚ) - 1 - i := by
    rw [Nat.sub_sub, Nat.cast_sub (by omega)]
    push_cast
    ring
  rw [hcast]
  ring

lemma sum_sq_nonneg (d : List ℚ) : 0 ≤ (d.map (fun v => v ^ 2)).sum := by
  apply List.sum_nonneg
  intro x hx
  obtain ⟨v, _, rfl⟩ := List.mem_map.mp hx
  positivity

lemma mse_loss_nonneg (a b : Batch) : 0 ≤ mse_loss a b := by
  unfold mse_loss
  exact div_nonneg (sum_sq_nonneg _) (by positivity)

lemma tSub_self (s : Tensor) : tSub s s = s.map (fun _ => (0 : ℚ)) := by
  induction s with
  | nil => rfl
  | cons v s ih =>
      show (v - v) :: tSub s s = 0 :: s.map (fun _ => (0 : ℚ))
      rw [sub_self, ih]

lemma mse_loss_self (a : Batch) : mse_loss a a = 0 := by
  show ((List.zipWith tSub a a).flatten.map (fun v => v ^ 2)).sum /
    (((List.zipWith tSub a a).flatten).length : ℚ) = 0
  suffices h : ((List.zipWith tSub a a).flatten.map (fun v => v ^ 2)).sum = 0 by
    rw [h]; simp
  induction a with
  | nil => simp
  | cons s a ih =>
      simp only [List.zipWith_cons_cons, List.flatten_cons, List.map_append,
        List.sum_append, ih, add_zero, tSub_self, List.map_map]
      apply List.sum_eq_zero
      intro x hx
      obtain ⟨v, _, rfl⟩ := List.mem_map.mp hx
      simp

lemma broadcastInterp_getD (t : List ℚ) (x z : Batch) (i j : ℕ)
    (ht : i < t.length) (hx : i < x.length) (hz : i < z.length)
    (hj : j < (x.getD i []).length) (hjz : j < (z.getD i []).length) :
    ((broadcastInterp t x z).getD i []).getD j 0 =
      (1 - t.getD i 0) * (x.getD i []).getD j 0 +
        t.getD i 0 * (z.getD i []).getD j 0 := by
  induction t generalizing x z i with
  | nil => simp at ht
  | cons tv ts ih =>
      cases x with
      | nil => simp at hx
      | cons xv xs =>
          cases z with
          | nil => simp at hz
          | cons zv zs =>
              cases i with
              | zero =>
                  simp only [broadcastInterp, List.getD_cons_zero] at hj hjz ⊢
                  unfold tZip
                  rw [List.getD_eq_getElem _ _ (by rw [List.length_zipWith]; omega),
                    List.getElem_zipWith,
                    List.getD_eq_getElem _ _ hj, List.getD_eq_getElem _ _ hjz]
              | succ k =>
                  simp only [broadcastInterp, List.getD_cons_succ] at hj hjz ⊢
                  exact ih xs zs k (by simpa using ht) (by simpa using hx)
                    (by simpa using hz) hj hjz

lemma scaleConst_ne_zero : scaleConst ≠ 0 := by norm_num [scaleConst]

lemma map_scale_div_cancel (l : List ℚ) :
    l.map (fun v => v * scaleConst / scaleConst) = l := by
  have h : ∀ v : ℚ, v * scaleConst / scaleConst = v := fun v =>
    mul_div_cancel_right₀ v scaleConst_ne_zero
  simp [h]

/-! Concrete collaborator instances used by the witnesses. -/

/-- An unconditional test network predicting the zero velocity field. -/
def zeroNet : Net where
  num_classes := none
  call := fun z _ _ => z.map (tMap (fun _ => 0))
  callUncond := fun z _ => z.map (tMap (fun _ => 0))
  forward_with_cfg := fun z _ _ _ => z.map (tMap (fun _ => 0))

/-- An unconditional pixel-space model over `zeroNet`. -/
def zeroRF : RectifiedFlow where
  net := zeroNet
  channels := 3
  image_size := 32
  logit_normal_sampling_t := false

/-- A conditional test network whose guided variant returns the plain
conditional prediction at every scale. -/
def condNet : Net where
  num_classes := some 10
  call := fun z _ _ => z
  callUncond := fun z _ => z
  forward_with_cfg := fun z _ _ _ => z

/-- A conditional pixel-space model over `condNet`. -/
def condRF : RectifiedFlow where
  net := condNet
  channels := 3
  image_size := 32
  logit_normal_sampling_t := false

/-- The identity stand-in autoencoder. -/
def idVAE : VAE where
  encodeSample := fun b => b
  decodeFn := fun b => b

/-- A latent model over `zeroNet` and the identity codec. -/
def zeroLRF : LatentRectifiedFlow where
  toRectifiedFlow := zeroRF
  vae := idVAE

/-- A latent model over `condNet` and the identity codec. -/
def condLRF : LatentRectifiedFlow where
  toRectifiedFlow := condRF
  vae := idVAE

/-! Extra facts about the trajectory accumulator, shared by several claims. -/

lemma eulerFold_snd_length (step : Batch → ℚ → Batch) (ts : List ℚ) (z : Batch) :
    ((eulerFold step ts (z, [z])).2).length = ts.length + 1 := by
  rw [eulerFold_snd]
  simp [eulerStates_length]

lemma eulerFold_snd_head (step : Batch → ℚ → Batch) (ts : List ℚ) (z : Batch) :
    ((eulerFold step ts (z, [z])).2).head? = some z := by
  rw [eulerFold_snd]
  rfl

lemma eulerFold_snd_getLast (step : Batch → ℚ → Batch) (ts : List ℚ) (z : Batch) :
    ((eulerFold step ts (z, [z])).2).getLast? =
      some ((eulerFold step ts (z, [z])).1) := by
  rw [eulerFold_snd, eulerFold_fst]
  exact eulerStates_getLast step ts z

/-! The claims. -/

/-- Claim C10: with `sampling_steps = 0`, `torch.linspace(0, 1, 0)` is empty,
the Euler loop body never executes — no network query and no division occurs —
and `sample` terminates, returning the initial noise clipped to [−1,1] and
mapped to [0,1]; the requested trajectory has length 1. -/
theorem sample_zero_steps_returns_clipped_noise (m : RectifiedFlow) (z0 : Batch) :
    m.sample 0 z0 =
      z0.map (fun s => s.map (fun v => (min (max v (-1)) 1 + 1) / 2)) ∧
    (m.sampleAll 0 z0).2 = [m.sample 0 z0] ∧
    (m.sampleAll 0 z0).2.length = 1 ∧
    sampleLoopIterations 0 = 0 :=
  ⟨rfl, rfl, rfl, rfl⟩

/-- Claim C4 is false on the code: at `sampling_steps = 0` the reversed time
span is empty, so the loop performs zero iterations — hence zero divisions by
`sampling_steps` and no failure — and `sample` returns the well-defined
clipped, remapped initial noise. -/
theorem sample_zero_steps_no_division :
    (linspace 0 1 0).reverse = ([] : List ℚ) ∧
    sampleLoopIterations 0 = 0 ∧
    zeroRF.sample 0 [[0]] = [[(1 : ℚ) / 2]] := by
  refine ⟨rfl, rfl, ?_⟩
  show [[(((min (max (0 : ℚ) (-1)) 1) + 1) / 2 : ℚ)]] = [[(1 : ℚ) / 2]]
  norm_num

/-- Claim C4 amended: `sampling_steps = 0` is indeed unguarded (no validation
rejects it), but it does not divide by zero: the loop never executes, and
`cond_sample` likewise returns the clipped, remapped initial noise. -/
theorem cond_sample_zero_steps (m : RectifiedFlow) (classes : List ℕ) (cfg : ℚ)
    (z0 : Batch) (h : m.net.use_cond = true) :
    m.cond_sample classes 0 cfg z0 = Except.ok (postprocess z0) ∧
    sampleLoopIterations 0 = 0 := by
  constructor
  · unfold RectifiedFlow.cond_sample
    rw [if_pos h]
    rfl
  · rfl

/-- Witness for the amended C4. -/
theorem cond_sample_zero_steps_witness :
    condRF.net.use_cond = true ∧
    condRF.cond_sample [3] 0 5 [[0]] = Except.ok (postprocess [[0]]) :=
  ⟨rfl, (cond_sample_zero_steps condRF [3] 5 [[0]] rfl).1⟩

/-- Claim C3: the loss (`forward`) raises exactly when a conditional network
(class-count attribute set) is invoked without labels, and `cond_sample` raises
exactly when the network lacks conditional capability; in every other case
neither raises. -/
theorem loss_and_cond_sample_error_iff (m : RectifiedFlow) (sigmoid : ℚ → ℚ)
    (x : Batch) (c : Option (List ℕ)) (tDraw : List ℚ) (z : Batch)
    (classes : List ℕ) (steps : ℕ) (cfg : ℚ) (z0 : Batch) :
    ((∃ e, m.forward sigmoid x c tDraw z = Except.error e) ↔
      (m.net.use_cond = true ∧ c = none)) ∧
    ((∃ e, m.cond_sample classes steps cfg z0 = Except.error e) ↔
      ¬ m.net.use_cond = true) := by
  constructor
  · unfold RectifiedFlow.forward
    by_cases h : m.net.use_cond = true ∧ c = none
    · rw [if_pos h]
      exact ⟨fun _ => h, fun _ => ⟨_, rfl⟩⟩
    · rw [if_neg h]
      simp [h]
  · unfold RectifiedFlow.cond_sample
    by_cases h : m.net.use_cond = true
    · rw [if_pos h]
      simp [h]
    · rw [if_neg h]
      exact ⟨fun _ => h, fun _ => ⟨_, rfl⟩⟩

/-- Claim C6: the scaling constant 0.13025 is applied symmetrically — `encode`
multiplies the autoencoder's latent sample by it, `decode` divides by it before
calling the decoder — so with an identity codec, `decode (encode x) = x`
exactly. -/
theorem latent_scale_symmetric_roundtrip (m : LatentRectifiedFlow) (x y : Batch)
    (henc : ∀ b, m.vae.encodeSample b = b) (hdec : ∀ b, m.vae.decodeFn b = b) :
    m.encode x = (m.vae.encodeSample x).map (tMap (fun v => v * scaleConst)) ∧
    m.decode y = m.vae.decodeFn (y.map (tMap (fun v => v / scaleConst))) ∧
    m.decode (m.encode x) = x := by
  refine ⟨rfl, rfl, ?_⟩
  unfold LatentRectifiedFlow.decode LatentRectifiedFlow.encode
  rw [henc, hdec, List.map_map]
  have hcomp : (tMap (fun v => v / scaleConst)) ∘ (tMap (fun v => v * scaleConst))
      = fun s => s := by
    funext s
    show (s.map (fun v => v * scaleConst)).map (fun v => v / scaleConst) = s
    rw [List.map_map]
    exact map_scale_div_cancel s
  rw [hcomp]
  exact List.map_id' x

/-- Witness for C6 at the identity codec and a concrete batch. -/
theorem latent_scale_symmetric_roundtrip_witness :
    (∀ b : Batch, zeroLRF.vae.encodeSample b = b) ∧
    zeroLRF.decode (zeroLRF.encode [[1, 2], [3]]) = [[1, 2], [3]] :=
  ⟨fun _ => rfl,
    (latent_scale_symmetric_roundtrip zeroLRF [[1, 2], [3]] []
      (fun _ => rfl) (fun _ => rfl)).2.2⟩

/-- Claim C9: the latent samplers run the identical Euler integration as the
pixel-space ones (same step function and reversed time span, entirely on
latent-shaped noise) and differ only by a `decode` applied to the integrated
result — and to every trajectory entry — before the [−1,1] → [0,1] remap. -/
theorem latent_sampler_is_pixel_integration_plus_decode
    (lm : LatentRectifiedFlow) (steps : ℕ) (z0 : Batch) (classes : List ℕ)
    (cfg : ℚ) :
    (lm.sample steps z0 =
        postprocess (lm.decode (eulerFold (lm.toRectifiedFlow.eulerStep steps)
          ((linspace 0 1 steps).reverse) (z0, [z0])).1) ∧
      lm.toRectifiedFlow.sample steps z0 =
        postprocess (eulerFold (lm.toRectifiedFlow.eulerStep steps)
          ((linspace 0 1 steps).reverse) (z0, [z0])).1 ∧
      (lm.sampleAll steps z0).2 =
        (eulerFold (lm.toRectifiedFlow.eulerStep steps)
          ((linspace 0 1 steps).reverse) (z0, [z0])).2.map
          (fun img => postprocess (lm.decode img)) ∧
      (lm.toRectifiedFlow.sampleAll steps z0).2 =
        (eulerFold (lm.toRectifiedFlow.eulerStep steps)
          ((linspace 0 1 steps).reverse) (z0, [z0])).2.map postprocess) ∧
    (lm.cond_sample classes steps cfg z0 =
        (if lm.net.use_cond = true then
          Except.ok (postprocess (lm.decode (eulerFold
            (lm.toRectifiedFlow.cfgStep steps classes cfg)
            ((linspace 0 1 steps).reverse) (z0, [z0])).1))
        else Except.error RFError.condRequired) ∧
      lm.toRectifiedFlow.cond_sample classes steps cfg z0 =
        (if lm.net.use_cond = true then
          Except.ok (postprocess (eulerFold
            (lm.toRectifiedFlow.cfgStep steps classes cfg)
            ((linspace 0 1 steps).reverse) (z0, [z0])).1)
        else Except.error RFError.condRequired) ∧
      lm.cond_sampleAll classes steps cfg z0 =
        (if lm.net.use_cond = true then
          Except.ok (postprocess (lm.decode (eulerFold
              (lm.toRectifiedFlow.cfgStep steps classes cfg)
              ((linspace 0 1 steps).reverse) (z0, [z0])).1),
            (eulerFold (lm.toRectifiedFlow.cfgStep steps classes cfg)
              ((linspace 0 1 steps).reverse) (z0, [z0])).2.map
              (fun img => postprocess (lm.decode img)))
        else Except.error RFError.condRequired)) :=
  ⟨⟨rfl, rfl, rfl, rfl⟩, rfl, rfl, rfl⟩

/-- Claim C2: for `sampling_steps ≥ 1`, `sample` integrates from t=1 to t=0 by
folding the update `z ← z − net(z, t)/sampling_steps` over the descending
reversed time span, then clips to [−1,1] and remaps to [0,1]; the time span has
exactly `sampling_steps` entries and (for ≥ 2 steps) is the evenly spaced
descending grid from 1 down to 0, queried at the ascending-convention t value. -/
theorem sample_euler_integration (m : RectifiedFlow) (steps : ℕ) (z0 : Batch)
    (h : 1 ≤ steps) :
    m.sample steps z0 =
      (((linspace 0 1 steps).reverse).foldl
        (fun z t =>
          List.zipWith
            (fun zi vi => List.zipWith (fun a b => a - b / (steps : ℚ)) zi vi)
            z (m.net.callUncond z t)) z0).map
        (fun s => s.map (fun v => (min (max v (-1)) 1 + 1) / 2)) ∧
    ((linspace 0 1 steps).reverse).length = steps ∧
    (2 ≤ steps → ∀ i : ℕ, i < steps →
      ((linspace 0 1 steps).reverse).getD i 0 =
        ((steps : ℚ) - 1 - i) / ((steps : ℚ) - 1)) ∧
    (2 ≤ steps → ((linspace 0 1 steps).reverse).getD 0 0 = 1 ∧
      ((linspace 0 1 steps).reverse).getD (steps - 1) 0 = 0) := by
  refine ⟨?_, by rw [List.length_reverse, linspace_length],
    fun h2 i hi => linspace_reverse_getD steps i h2 hi, fun h2 => ⟨?_, ?_⟩⟩
  · unfold RectifiedFlow.sample
    rw [eulerFold_fst]
    rfl
  · rw [linspace_reverse_getD steps 0 h2 (by omega)]
    have hne : (steps : ℚ) - 1 ≠ 0 :=
      sub_ne_zero.mpr (by exact_mod_cast (by omega : steps ≠ 1))
    push_cast
    rw [sub_zero, div_self hne]
  · rw [linspace_reverse_getD steps (steps - 1) h2 (by omega)]
    rw [Nat.cast_sub (by omega : 1 ≤ steps)]
    push_cast
    simp

/-- Witness for C2 at one step. -/
theorem sample_euler_integration_witness :
    1 ≤ 1 ∧ ((linspace 0 1 1).reverse).length = 1 :=
  ⟨by decide, (sample_euler_integration zeroRF 1 [[0]] (by decide)).2.1⟩

/-- Claim C5: with `return_all_steps`, the trajectory of `sample` (and of
`cond_sample`, and of the latent sampler) has length `sampling_steps + 1`,
ordered by step; its first element is the initial noise clipped and mapped to
[0,1], and its last element equals the final returned sample. -/
theorem trajectory_endpoints (m : RectifiedFlow) (lm : LatentRectifiedFlow)
    (steps : ℕ) (z0 w0 u0 : Batch) (classes : List ℕ) (cfg : ℚ)
    (h : 1 ≤ steps) :
    ((m.sampleAll steps z0).1 = m.sample steps z0 ∧
      (m.sampleAll steps z0).2.length = steps + 1 ∧
      (m.sampleAll steps z0).2.head? = some (postprocess z0) ∧
      (m.sampleAll steps z0).2.getLast? = some (m.sample steps z0)) ∧
    (m.net.use_cond = true →
      ∃ r, m.cond_sampleAll classes steps cfg w0 = Except.ok r ∧
        m.cond_sample classes steps cfg w0 = Except.ok r.1 ∧
        r.2.length = steps + 1 ∧
        r.2.head? = some (postprocess w0) ∧
        r.2.getLast? = some r.1) ∧
    ((lm.sampleAll steps u0).2.length = steps + 1 ∧
      (lm.sampleAll steps u0).2.getLast? = some (lm.sample steps u0)) := by
  have hlen : ((linspace 0 1 steps).reverse).length = steps := by
    rw [List.length_reverse, linspace_length]
  refine ⟨⟨rfl, ?_, ?_, ?_⟩, ?_, ?_, ?_⟩
  · show ((eulerFold (m.eulerStep steps) ((linspace 0 1 steps).reverse)
      (z0, [z0])).2.map postprocess).length = steps + 1
    rw [List.length_map, eulerFold_snd_length, hlen]
  · show ((eulerFold (m.eulerStep steps) ((linspace 0 1 steps).reverse)
      (z0, [z0])).2.map postprocess).head? = some (postprocess z0)
    rw [List.head?_map, eulerFold_snd_head]
    rfl
  · show ((eulerFold (m.eulerStep steps) ((linspace 0 1 steps).reverse)
      (z0, [z0])).2.map postprocess).getLast? = some (m.sample steps z0)
    rw [List.getLast?_map, eulerFold_snd_getLast]
    rfl
  · intro hc
    refine ⟨(postprocess (eulerFold (m.cfgStep steps classes cfg)
        ((linspace 0 1 steps).reverse) (w0, [w0])).1,
      (eulerFold (m.cfgStep steps classes cfg)
        ((linspace 0 1 steps).reverse) (w0, [w0])).2.map postprocess),
      ?_, ?_, ?_, ?_, ?_⟩
    · unfold RectifiedFlow.cond_sampleAll
      rw [if_pos hc]
    · unfold RectifiedFlow.cond_sample
      rw [if_pos hc]
    · show ((eulerFold (m.cfgStep steps classes cfg) ((linspace 0 1 steps).reverse)
        (w0, [w0])).2.map postprocess).length = steps + 1
      rw [List.length_map, eulerFold_snd_length, hlen]
    · show ((eulerFold (m.cfgStep steps classes cfg) ((linspace 0 1 steps).reverse)
        (w0, [w0])).2.map postprocess).head? = some (postprocess w0)
      rw [List.head?_map, eulerFold_snd_head]
      rfl
    · show ((eulerFold (m.cfgStep steps classes cfg) ((linspace 0 1 steps).reverse)
        (w0, [w0])).2.map postprocess).getLast? =
        some (postprocess (eulerFold (m.cfgStep steps classes cfg)
          ((linspace 0 1 steps).reverse) (w0, [w0])).1)
      rw [List.getLast?_map, eulerFold_snd_getLast]
      rfl
  · show ((eulerFold (lm.toRectifiedFlow.eulerStep steps)
      ((linspace 0 1 steps).reverse) (u0, [u0])).2.map
        (fun img => postprocess (lm.decode img))).length = steps + 1
    rw [List.length_map, eulerFold_snd_length, hlen]
  · show ((eulerFold (lm.toRectifiedFlow.eulerStep steps)
      ((linspace 0 1 steps).reverse) (u0, [u0])).2.map
        (fun img => postprocess (lm.decode img))).getLast? =
      some (lm.sample steps u0)
    rw [List.getLast?_map, eulerFold_snd_getLast]
    rfl

/-- Witness for C5 at one step. -/
theorem trajectory_endpoints_witness :
    1 ≤ 1 ∧ (zeroRF.sampleAll 1 [[0]]).2.length = 1 + 1 :=
  ⟨by decide,
    (trajectory_endpoints zeroRF zeroLRF 1 [[0]] [[0]] [[0]] [0] 5
      (by decide)).1.2.1⟩

/-- Claim C7: when the network's guided variant degenerates at `cfg_scale = 1`
to the plain conditional prediction, `cond_sample` with `cfg_scale = 1` from
the same initial noise equals the un-guided conditional Euler integration. -/
theorem cond_sample_cfg_one_unguided (m : RectifiedFlow) (classes : List ℕ)
    (steps : ℕ) (z0 : Batch) (hcap : m.net.use_cond = true)
    (hcfg : ∀ z t y, m.net.forward_with_cfg z t y 1 = m.net.call z t (some y)) :
    m.cond_sample classes steps 1 z0 =
      Except.ok (unguidedCondEuler m classes steps z0) := by
  unfold RectifiedFlow.cond_sample
  rw [if_pos hcap, eulerFold_fst]
  unfold unguidedCondEuler
  refine congrArg Except.ok (congrArg postprocess (List.foldl_ext _ _ z0 ?_))
  intro acc b _
  show m.cfgStep steps classes 1 acc b = _
  unfold RectifiedFlow.cfgStep
  rw [hcfg]

/-- Witness for C7 on a network whose guided call is the conditional call. -/
theorem cond_sample_cfg_one_unguided_witness :
    condRF.net.use_cond = true ∧
    condRF.cond_sample [2] 1 1 [[0]] =
      Except.ok (unguidedCondEuler condRF [2] 1 [[0]]) :=
  ⟨rfl, cond_sample_cfg_one_unguided condRF [2] 1 [[0]] rfl (fun _ _ _ => rfl)⟩

/-- Claim C8: under the label precondition, the loss is a single non-negative
scalar, and it is 0 whenever the network constantly returns the target
displacement `z − x` (with `x` normalized, as the source computes it). -/
theorem loss_nonneg_and_zero_at_target (m : RectifiedFlow) (sigmoid : ℚ → ℚ)
    (x : Batch) (c : Option (List ℕ)) (tDraw : List ℚ) (z : Batch)
    (h : m.net.use_cond = true → c ≠ none) :
    ∃ L : ℚ, m.forward sigmoid x c tDraw z = Except.ok L ∧ 0 ≤ L ∧
      ((∀ zt ts, m.net.call zt ts c =
          List.zipWith tSub z (x.map (tMap normalize_to_neg1_1))) → L = 0) := by
  have hcond : ¬ (m.net.use_cond = true ∧ c = none) := fun hc => h hc.1 hc.2
  refine ⟨mse_loss (List.zipWith tSub z (x.map (tMap normalize_to_neg1_1)))
      (m.net.call
        (broadcastInterp
          (if m.logit_normal_sampling_t then tDraw.map sigmoid else tDraw)
          (x.map (tMap normalize_to_neg1_1)) z)
        (if m.logit_normal_sampling_t then tDraw.map sigmoid else tDraw) c),
    ?_, mse_loss_nonneg _ _, ?_⟩
  · unfold RectifiedFlow.forward
    rw [if_neg hcond]
  · intro hnet
    rw [hnet]
    exact mse_loss_self _

/-- Witness for C8 on an unconditional model and a concrete batch. -/
theorem loss_nonneg_and_zero_at_target_witness :
    (zeroRF.net.use_cond = true → (none : Option (List ℕ)) ≠ none) ∧
    ∃ L : ℚ, zeroRF.forward (fun v => v) [[(1 : ℚ) / 2]] none [(1 : ℚ) / 2] [[0]]
      = Except.ok L ∧ 0 ≤ L := by
  refine ⟨by decide, ?_⟩
  obtain ⟨L, h1, h2, _⟩ := loss_nonneg_and_zero_at_target zeroRF (fun v => v)
    [[(1 : ℚ) / 2]] none [(1 : ℚ) / 2] [[0]] (by decide)
  exact ⟨L, h1, h2⟩

/-- Claim C1: under the label precondition, the loss is computed exactly as
described: per-sample time is the raw draw, passed through the library sigmoid
under the logit-normal policy; `x` is normalized to [−1,1]; `z_t` is the convex
combination `(1−t)·x + t·z` with `t` broadcast over each sample's entries; the
network is queried at `(z_t, t, c)`; and the result is the mean-squared error
between that prediction and the displacement `z − x`. -/
theorem forward_loss_algorithm (m : RectifiedFlow) (sigmoid : ℚ → ℚ) (x : Batch)
    (c : Option (List ℕ)) (tDraw : List ℚ) (z : Batch)
    (h : m.net.use_cond = true → c ≠ none) :
    m.forward sigmoid x c tDraw z =
      Except.ok (mse_loss
        (List.zipWith tSub z (x.map (tMap normalize_to_neg1_1)))
        (m.net.call
          (broadcastInterp
            (if m.logit_normal_sampling_t then tDraw.map sigmoid else tDraw)
            (x.map (tMap normalize_to_neg1_1)) z)
          (if m.logit_normal_sampling_t then tDraw.map sigmoid else tDraw) c)) ∧
    (∀ (t : List ℚ) (xs zs : Batch) (i j : ℕ), i < t.length → i < xs.length →
      i < zs.length → j < (xs.getD i []).length → j < (zs.getD i []).length →
      ((broadcastInterp t xs zs).getD i []).getD j 0 =
        (1 - t.getD i 0) * (xs.getD i []).getD j 0 +
          t.getD i 0 * (zs.getD i []).getD j 0) ∧
    (∀ a b : Batch, mse_loss a b =
      ((List.zipWith tSub a b).flatten.map (fun v => v ^ 2)).sum /
        (((List.zipWith tSub a b).flatten).length : ℚ)) ∧
    (∀ v : ℚ, normalize_to_neg1_1 v = 2 * v - 1) := by
  refine ⟨?_,
    fun t xs zs i j ht hx hz hj hjz =>
      broadcastInterp_getD t xs zs i j ht hx hz hj hjz,
    fun a b => rfl, fun v => rfl⟩
  have hcond : ¬ (m.net.use_cond = true ∧ c = none) := fun hc => h hc.1 hc.2
  unfold RectifiedFlow.forward
  rw [if_neg hcond]

/-- Witness for C1 on a conditional input and an unconditional model. -/
theorem forward_loss_algorithm_witness :
    (zeroRF.net.use_cond = true → (some [0] : Option (List ℕ)) ≠ none) ∧
    zeroRF.forward (fun v => v) [[(1 : ℚ) / 2]] (some [0]) [(1 : ℚ) / 2] [[0]] =
      Except.ok (mse_loss
        (List.zipWith tSub [[0]] ([[(1 : ℚ) / 2]].map (tMap normalize_to_neg1_1)))
        (zeroRF.net.call
          (broadcastInterp
            (if zeroRF.logit_normal_sampling_t then
              [(1 : ℚ) / 2].map (fun v => v) else [(1 : ℚ) / 2])
            ([[(1 : ℚ) / 2]].map (tMap normalize_to_neg1_1)) [[0]])
          (if zeroRF.logit_normal_sampling_t then
            [(1 : ℚ) / 2].map (fun v => v) else [(1 : ℚ) / 2]) (some [0]))) :=
  ⟨by decide,
    (forward_loss_algorithm zeroRF (fun v => v) [[(1 : ℚ) / 2]] (some [0])
      [(1 : ℚ) / 2] [[0]] (by decide)).1⟩

end ArchiRF
